import Mathlib

/-!
Verification of the core engine of the `forge` terminal HTTP client.

Strings from the Rust source are modelled as `List Char`; positions are
counted in characters of the modelled string (the Rust code counts UTF-8
bytes, but every delimiter the scanners compare against is ASCII, so the
two views find exactly the same matches and differ only in the unit in
which offsets are measured).

Source files embedded below:
  - src/env/interpolator.rs   (`parse_vars`)
  - src/env/resolver.rs       (`EnvResolver`, `resolve`, `resolve_for_send`)
  - src/http/builder.rs       (`normalize_url`, `build_request`)
  - src/http/executor.rs      (`execute`, `do_execute`, `parse_set_cookie`)
  - src/app.rs                (`send_request`, `handle_response`, cancellation slot)
-/

/-- Strings of the Rust source, modelled as lists of characters. -/
abbrev Str := List Char

/-- Left curly brace character (written by code point to keep it out of
string literals). -/
def lbrace : Char := Char.ofNat 123

/-- Right curly brace character. -/
def rbrace : Char := Char.ofNat 125

/-- Unicode white space, as recognised by Rust `char::is_whitespace`
(the Unicode `White_Space` property). -/
def isWS (c : Char) : Bool :=
  let n := c.toNat
  (9 ≤ n ∧ n ≤ 13) ∨ n = 32 ∨ n = 133 ∨ n = 160 ∨ n = 5760 ∨
  (8192 ≤ n ∧ n ≤ 8202) ∨ n = 8232 ∨ n = 8233 ∨ n = 8239 ∨ n = 8287 ∨ n = 12288

/-- Rust `str::trim`: drop white space from both ends. -/
def trimL (l : Str) : Str :=
  ((l.dropWhile isWS).reverse.dropWhile isWS).reverse

-- ─── src/env/interpolator.rs ──────────────────────────────────────────────────

/-- Inner loop of `parse_vars` searching for the closing `}}` marker from
index `j` (Rust: `while j + 1 < len { if bytes[j] == '}' && bytes[j+1] == '}' ... }`).
`fuel` only drives the recursion; any `fuel` with `s.length ≤ j + fuel`
computes the real result. -/
def scanClose (s : Str) : Nat → Nat → Option Nat
  | 0, _ => none
  | fuel + 1, j =>
    if j + 1 < s.length then
      if s.getD j ' ' = rbrace ∧ s.getD (j + 1) ' ' = rbrace then some j
      else scanClose s fuel (j + 1)
    else none

/-- Main loop of `parse_vars`: scan from index `i` for the two-character
opening marker, then look for the closing marker; emit a span for a
non-empty trimmed interior and continue right after it; on an unclosed
opener abort the whole scan (`break`).  `fuel` only drives the recursion. -/
def parseVarsAux (s : Str) : Nat → Nat → List (Nat × Nat × Str)
  | 0, _ => []
  | fuel + 1, i =>
    if i + 1 < s.length then
      if s.getD i ' ' = lbrace ∧ s.getD (i + 1) ' ' = lbrace then
        match scanClose s s.length (i + 2) with
        | some j =>
          let name := (s.drop (i + 2)).take (j - (i + 2))
          let trimmed := trimL name
          if trimmed ≠ [] then (i, j + 2, trimmed) :: parseVarsAux s fuel (j + 2)
          else parseVarsAux s fuel (j + 2)
        | none => []
      else parseVarsAux s fuel (i + 1)
    else []

/-- `parse_vars` from src/env/interpolator.rs: all placeholder spans of
`input` as `(start, end, trimmed name)` triples, offsets inclusive of the
delimiters. -/
def parse_vars (input : Str) : List (Nat × Nat × Str) :=
  parseVarsAux input (input.length + 1) 0

-- ─── src/env/resolver.rs ──────────────────────────────────────────────────────

/-- `VarStatus` from src/env/resolver.rs. -/
inductive VarStatus where
  | Resolved (val : Str)
  | Unresolved
  | Secret
  deriving DecidableEq, Repr

/-- `VarSpan` from src/env/resolver.rs (`stop` is the field the source
calls `end`, a reserved word in Lean). -/
structure VarSpan where
  start : Nat
  stop : Nat
  variable_name : Str
  status : VarStatus
  deriving DecidableEq, Repr

/-- `ResolvedString` from src/env/resolver.rs. -/
structure ResolvedString where
  value : Str
  spans : List VarSpan
  deriving DecidableEq, Repr

/-- `EnvResolver` from src/env/resolver.rs.  A `HashMap` layer is modelled
as an association list looked up by first match; the `HashSet` of secret
names as a list queried by membership. -/
structure EnvResolver where
  layers : List (List (Str × Str))
  secret_keys : List Str
  deriving Repr

/-- `HashMap::get` on one layer (association-list model). -/
def layerGet : List (Str × Str) → Str → Option Str
  | [], _ => none
  | (k, v) :: rest, name => if k = name then some v else layerGet rest name

/-- `EnvResolver::lookup`: first layer containing the name wins. -/
def EnvResolver.lookup (r : EnvResolver) (name : Str) : Option Str :=
  go r.layers
where
  go : List (List (Str × Str)) → Option Str
    | [] => none
    | layer :: rest =>
      match layerGet layer name with
      | some v => some v
      | none => go rest

/-- `EnvResolver::lookup_secret` (the source delegates to `lookup`). -/
def EnvResolver.lookup_secret (r : EnvResolver) (name : Str) : Option Str :=
  r.lookup name

/-- The fixed eight-bullet display mask for secret values. -/
def secretMask : Str := ['•', '•', '•', '•', '•', '•', '•', '•']

/-- Loop body of `EnvResolver::resolve`: walk the parsed spans, carrying
the cursor `last`, the output accumulator and the emitted spans. -/
def EnvResolver.resolveAux (r : EnvResolver) (input : Str) :
    List (Nat × Nat × Str) → Nat → Str → List VarSpan → ResolvedString
  | [], last, output, spans =>
    { value := output ++ input.drop last, spans := spans }
  | (start, stop, name) :: rest, last, output, spans =>
    let output := output ++ (input.drop last).take (start - last)
    let valOutStart := output.length
    let repl : Str × VarStatus :=
      match r.lookup name with
      | some val =>
        if name ∈ r.secret_keys then (secretMask, VarStatus.Secret)
        else (val, VarStatus.Resolved val)
      | none => ((input.drop start).take (stop - start), VarStatus.Unresolved)
    let output := output ++ repl.1
    let spans := spans ++ [⟨valOutStart, output.length, name, repl.2⟩]
    r.resolveAux input rest stop output spans

/-- `EnvResolver::resolve` from src/env/resolver.rs: resolve for display;
secrets are replaced by the eight-bullet mask. -/
def EnvResolver.resolve (r : EnvResolver) (input : Str) : ResolvedString :=
  let var_spans := parse_vars input
  if var_spans = [] then { value := input, spans := [] }
  else r.resolveAux input var_spans 0 [] []

/-- Loop body of `EnvResolver::resolve_for_send`. -/
def EnvResolver.resolveSendAux (r : EnvResolver) (input : Str) :
    List (Nat × Nat × Str) → Nat → Str → Str
  | [], last, output => output ++ input.drop last
  | (start, stop, name) :: rest, last, output =>
    let output := output ++ (input.drop last).take (start - last)
    let output :=
      match r.lookup_secret name with
      | some val => output ++ val
      | none => output ++ (input.drop start).take (stop - start)
    r.resolveSendAux input rest stop output

/-- `EnvResolver::resolve_for_send` from src/env/resolver.rs: resolve for
the HTTP send; secrets substitute their real stored value, unresolved
placeholders stay as literal text. -/
def EnvResolver.resolve_for_send (r : EnvResolver) (input : Str) : Str :=
  let var_spans := parse_vars input
  if var_spans = [] then input
  else r.resolveSendAux input var_spans 0 []

example : parse_vars ([lbrace, lbrace, 'h', 'o', 's', 't', rbrace, rbrace] ++ "/api".toList)
    = [(0, 8, "host".toList)] := by decide

example : parse_vars (lbrace :: lbrace :: "host".toList) = [] := by decide

example :
    (EnvResolver.mk [[("host".toList, "example.com".toList)]] []).resolve
        ([lbrace, lbrace, 'h', 'o', 's', 't', rbrace, rbrace] ++ "/api".toList)
      = ⟨"example.com/api".toList,
         [⟨0, 11, "host".toList, VarStatus.Resolved "example.com".toList⟩]⟩ := by decide

-- ─── generic string helpers (Rust std methods used by the source) ────────────

/-- Rust `str::starts_with`. -/
def startsWithL : Str → Str → Bool
  | [], _ => true
  | _ :: _, [] => false
  | p :: ps, c :: cs => if p = c then startsWithL ps cs else false

/-- Rust `str::strip_prefix`: the remainder after the pattern, when the
string starts with it. -/
def stripPreL : Str → Str → Option Str
  | [], l => some l
  | _ :: _, [] => none
  | p :: ps, c :: cs => if p = c then stripPreL ps cs else none

/-- Rust `str::contains` with a string pattern (substring search). -/
def containsSub (needle hay : Str) : Bool :=
  match hay with
  | [] => startsWithL needle []
  | _ :: rest => startsWithL needle hay || containsSub needle rest

/-- ASCII-lowercase a string (reqwest normalises header names this way). -/
def toLowerL (l : Str) : Str := l.map Char.toLower

-- ─── src/http/builder.rs ─────────────────────────────────────────────────────

/-- `normalize_url` from src/http/builder.rs. -/
def normalize_url (url : Str) : Str :=
  let url := trimL url
  if url = [] then url
  else if startsWithL [':'] url then "http://localhost".toList ++ url
  else if startsWithL "http://".toList url || startsWithL "https://".toList url then url
  else if startsWithL "localhost".toList url || startsWithL "127.0.0.1".toList url then
    "http://".toList ++ url
  else "https://".toList ++ url

/-- `HttpMethod` from src/state/request_state.rs. -/
inductive HttpMethod where
  | get | post | put | patch | delete | head | options
  deriving DecidableEq, Repr

/-- `KeyValuePair` from src/state/request_state.rs. -/
structure KeyValuePair where
  key : Str
  value : Str
  enabled : Bool
  description : Str
  deriving DecidableEq, Repr

/-- `RequestBody` from src/state/request_state.rs (binary payloads as byte
lists). -/
inductive RequestBody where
  | none
  | text (s : Str)
  | json (s : Str)
  | form (pairs : List KeyValuePair)
  | binary (bytes : List Nat)
  deriving DecidableEq, Repr

/-- `AuthConfig` from src/state/request_state.rs. -/
inductive AuthConfig where
  | none
  | bearer (token : Str)
  | basic (username password : Str)
  | apiKey (key value : Str) (in_header : Bool)
  deriving DecidableEq, Repr

/-- `RequestState` from src/state/request_state.rs, restricted to the
fields the request pipeline reads (`id`, `name`, cursor and scroll fields
are UI-only bookkeeping never read by the builder, executor or
orchestrator). -/
structure RequestState where
  method : HttpMethod
  url : Str
  headers : List KeyValuePair
  params : List KeyValuePair
  body : RequestBody
  auth : AuthConfig
  deriving DecidableEq, Repr

/-- Valid character of an HTTP header name (`http::HeaderName`): the
RFC 7230 token characters.  Code point 96 is the backquote. -/
def validHeaderNameChar (c : Char) : Bool :=
  c.isAlphanum ||
  c ∈ ['!', '#', '$', '%', '&', '\'', '*', '+', '-', '.', '^', '_', '|', '~', Char.ofNat 96]

/-- Valid HTTP header name: non-empty, all token characters
(`HeaderName::from_bytes`; ASCII uppercase is normalised, not rejected). -/
def validHeaderName (name : Str) : Bool :=
  name ≠ [] && name.all validHeaderNameChar

/-- Valid character of an HTTP header value (`HeaderValue::from_str`):
horizontal tab or any character that is not a control character
(code points below 32 other than tab, and DEL, are rejected). -/
def validHeaderValueChar (c : Char) : Bool :=
  c.toNat = 9 || (32 ≤ c.toNat && c.toNat ≠ 127)

/-- Valid HTTP header value. -/
def validHeaderValue (value : Str) : Bool :=
  value.all validHeaderValueChar

/-- A header pair reqwest accepts without recording a builder error. -/
def headerOk (key value : Str) : Bool :=
  validHeaderName key && validHeaderValue value

-- UTF-8 and base64, used by reqwest's `basic_auth` credential encoding.

/-- UTF-8 encoding of one code point. -/
def utf8Encode1 (n : Nat) : List Nat :=
  if n < 128 then [n]
  else if n < 2048 then [192 + n / 64, 128 + n % 64]
  else if n < 65536 then [224 + n / 4096, 128 + n / 64 % 64, 128 + n % 64]
  else [240 + n / 262144, 128 + n / 4096 % 64, 128 + n / 64 % 64, 128 + n % 64]

/-- UTF-8 encoding of a string. -/
def utf8Encode (s : Str) : List Nat :=
  (s.map (fun c => utf8Encode1 c.toNat)).flatten

/-- The base64 alphabet. -/
def b64alphabet : Str :=
  "ABCDEFGHIJKLMNOPQRSTUVWXYZabcdefghijklmnopqrstuvwxyz0123456789+/".toList

/-- One base64 digit. -/
def b64char (n : Nat) : Char := b64alphabet.getD n 'A'

/-- Standard base64 of a byte sequence, with `=` padding. -/
def base64 : List Nat → Str
  | [] => []
  | [a] => [b64char (a / 4), b64char (a % 4 * 16), '=', '=']
  | [a, b] => [b64char (a / 4), b64char (a % 4 * 16 + b / 16), b64char (b % 16 * 4), '=']
  | a :: b :: c :: rest =>
    b64char (a / 4) :: b64char (a % 4 * 16 + b / 16) ::
      b64char (b % 16 * 4 + c / 64) :: b64char (c % 64) :: base64 rest

/-- The `Authorization` value produced by reqwest's `basic_auth`. -/
def basicAuthValue (username password : Str) : Str :=
  "Basic ".toList ++ base64 (utf8Encode (username ++ ':' :: password))

/-- The `Authorization` value produced by reqwest's `bearer_auth`. -/
def bearerAuthValue (token : Str) : Str := "Bearer ".toList ++ token

/-- The request a reqwest `RequestBuilder` accumulates: method and URL
from `client.request`, query pairs and headers appended in call order,
and an optional body payload. -/
structure BuiltRequest where
  method : HttpMethod
  url : Str
  queryPairs : List (Str × Str)
  headers : List (Str × Str)
  body : RequestBody
  deriving DecidableEq, Repr

/-- reqwest `RequestBuilder` model: the accumulated request plus the
deferred builder error (reqwest stores `Result<Request, Error>`; the first
failing combinator records the error and later combinators are no-ops). -/
structure ReqBuilder where
  req : BuiltRequest
  err : Option Str
  deriving DecidableEq, Repr

/-- `Client::request(method, url)`: parses the URL eagerly; an unparsable
URL becomes the deferred builder error.  URL-grammar validity itself lives
in the `url` crate and is passed in as the predicate `urlOk`. -/
def clientRequest (urlOk : Str → Bool) (method : HttpMethod) (url : Str) : ReqBuilder :=
  { req := ⟨method, url, [], [], RequestBody.none⟩,
    err := if urlOk url then none else some "builder error: invalid URL".toList }

/-- `RequestBuilder::query` with one pair: serialising string pairs never
fails; a no-op on an errored builder. -/
def ReqBuilder.query (b : ReqBuilder) (k v : Str) : ReqBuilder :=
  if b.err.isSome then b
  else { b with req := { b.req with queryPairs := b.req.queryPairs ++ [(k, v)] } }

/-- `RequestBuilder::header`: records the first invalid header name/value
as the deferred builder error; a no-op on an errored builder. -/
def ReqBuilder.header (b : ReqBuilder) (k v : Str) : ReqBuilder :=
  if b.err.isSome then b
  else if headerOk k v then
    { b with req := { b.req with headers := b.req.headers ++ [(k, v)] } }
  else { b with err := some ("builder error: invalid header ".toList ++ k) }

/-- `RequestBuilder::body`: sets the payload; never fails. -/
def ReqBuilder.setBody (b : ReqBuilder) (body : RequestBody) : ReqBuilder :=
  if b.err.isSome then b
  else { b with req := { b.req with body := body } }

/-- `build_request` from src/http/builder.rs: URL normalisation, enabled
non-empty-key query params and headers in declaration order, auth, body.
The source returns `Ok(builder)` unconditionally; failure stays deferred
inside the builder until `.build()`. -/
def build_request (urlOk : Str → Bool) (state : RequestState) : ReqBuilder :=
  let url := normalize_url state.url
  let builder := clientRequest urlOk state.method url
  let builder := state.params.foldl
    (fun b p => if p.enabled && p.key ≠ [] then b.query p.key p.value else b) builder
  let builder := state.headers.foldl
    (fun b h => if h.enabled && h.key ≠ [] then b.header h.key h.value else b) builder
  let builder :=
    match state.auth with
    | AuthConfig.none => builder
    | AuthConfig.bearer token => builder.header "authorization".toList (bearerAuthValue token)
    | AuthConfig.basic u p => builder.header "authorization".toList (basicAuthValue u p)
    | AuthConfig.apiKey k v inHeader =>
      if inHeader then builder.header k v else builder.query k v
  match state.body with
  | RequestBody.none => builder
  | RequestBody.text t =>
    (builder.setBody (RequestBody.text t)).header "Content-Type".toList "text/plain".toList
  | RequestBody.json j =>
    (builder.setBody (RequestBody.json j)).header "Content-Type".toList "application/json".toList
  | RequestBody.form pairs =>
    -- `.form` URL-encodes the enabled pairs and sets the form content type;
    -- serialising string pairs never fails.
    (builder.setBody (RequestBody.form (pairs.filter (·.enabled)))).header
      "Content-Type".toList "application/x-www-form-urlencoded".toList
  | RequestBody.binary bytes => builder.setBody (RequestBody.binary bytes)

/-- `RequestBuilder::build()`: surfaces the deferred builder error. -/
def ReqBuilder.buildFinal (b : ReqBuilder) : Except Str BuiltRequest :=
  match b.err with
  | some e => Except.error e
  | none => Except.ok b.req

example : normalize_url (':' :: "3000/x".toList) = "http://localhost:3000/x".toList := by decide
example : normalize_url "example.com".toList = "https://example.com".toList := by decide
example : normalize_url "http://x".toList = "http://x".toList := by decide
example : normalize_url [] = [] := by decide

-- ─── src/error.rs ────────────────────────────────────────────────────────────

/-- The kind carried inside a `reqwest::Error`: reqwest distinguishes
errors raised while constructing a request (`Kind::Builder`) from errors
raised while sending it (connect, TLS, timeout, body read). -/
inductive HttpErrKind where
  | builder
  | transport
  deriving DecidableEq, Repr

/-- `AppError` from src/error.rs.  `Http` wraps a `reqwest::Error`,
modelled as its kind plus its display message; the other variants carry
their display message. -/
inductive AppError where
  | Http (kind : HttpErrKind) (msg : Str)
  | Io (msg : Str)
  | Json (msg : Str)
  | Timeout
  | Cancelled
  | Other (msg : Str)
  deriving DecidableEq, Repr

-- ─── src/state/response_state.rs ─────────────────────────────────────────────

/-- `RequestTiming` from src/state/response_state.rs. -/
structure RequestTiming where
  dns_lookup_ms : Nat
  tcp_connect_ms : Nat
  tls_handshake_ms : Nat
  time_to_first_byte_ms : Nat
  download_ms : Nat
  total_ms : Nat
  deriving DecidableEq, Repr

/-- `Cookie` from src/state/response_state.rs. -/
structure Cookie where
  name : Str
  value : Str
  domain : Str
  path : Str
  deriving DecidableEq, Repr

/-- `ResponseBody` from src/state/response_state.rs. -/
inductive ResponseBody where
  | empty
  | text (s : Str)
  | binary (b : List Nat)
  deriving DecidableEq, Repr

/-- `ResponseState` from src/state/response_state.rs, restricted to the
fields the executor computes deterministically (`received_at` is a wall
clock read and `scroll_offset` a UI field initialised to zero; neither is
mentioned by any claim). -/
structure ResponseState where
  status : Nat
  status_text : Str
  headers : List (Str × Str)
  body : ResponseBody
  cookies : List Cookie
  timing : RequestTiming
  size_bytes : Nat
  deriving DecidableEq, Repr

-- ─── src/http/executor.rs: parse_set_cookie ──────────────────────────────────

/-- Rust `str::splitn(2, sep)` as the piece before the first separator and
the (optional) remainder after it. -/
def splitFirst (sep : Char) : Str → Str × Option Str
  | [] => ([], none)
  | c :: rest =>
    if c = sep then ([], some rest)
    else
      let (a, b) := splitFirst sep rest
      (c :: a, b)

/-- Rust `str::split(sep)`: all separator-delimited pieces (the empty
string yields one empty piece, as in Rust). -/
def splitAll (sep : Char) : Str → List Str
  | [] => [[]]
  | c :: rest =>
    if c = sep then [] :: splitAll sep rest
    else
      match splitAll sep rest with
      | [] => [[c]]
      | a :: as' => (c :: a) :: as'

/-- `parse_set_cookie` from src/http/executor.rs: name and value from the
text before the first `;` split at its first `=` (trimmed, empty
defaults); `Domain=` and `Path=` attributes recognised after trimming,
later occurrences overwriting earlier ones; every other attribute
ignored.  Total on arbitrary input. -/
def parse_set_cookie (header : Str) : Cookie :=
  let p1 := splitFirst ';' header
  let name_value := p1.1
  let nv := splitFirst '=' name_value
  let name := trimL nv.1
  let value := trimL (nv.2.getD [])
  let attrs := splitAll ';' (p1.2.getD [])
  let dp := attrs.foldl
    (fun (dp : Str × Str) attr =>
      let attr := trimL attr
      match stripPreL "Domain=".toList attr with
      | some d => (d, dp.2)
      | none =>
        match stripPreL "Path=".toList attr with
        | some p => (dp.1, p)
        | none => dp)
    ([], ['/'])
  ⟨name, value, dp.1, dp.2⟩

-- ─── src/http/executor.rs: do_execute / execute ──────────────────────────────

/-- Pure interfaces of the external serde_json / UTF-8 codecs used by the
body classifier: whether `serde_json::from_slice` parses the bytes, the
`to_string_pretty` result for parsed bytes (`Except` because the source
propagates its `Result` with `?`), lossy and strict UTF-8 decoding. -/
structure Codec where
  jsonParses : List Nat → Bool
  jsonPretty : List Nat → Except Str Str
  utf8Lossy : List Nat → Str
  utf8Strict : List Nat → Option Str

/-- What the network returns for one request, as observed at the two
await points of `do_execute`: either `client.execute` fails outright, or
it yields the response head (status, canonical reason if any, headers)
and then `response.bytes()` either fails mid-read or yields the body.
A header value is `none` when it is not valid UTF-8 (`to_str` fails). -/
inductive NetPhase where
  | connectErr (msg : Str)
  | ok (status : Nat) (statusText : Option Str)
      (headers : List (Str × Option Str)) (bodyResult : Except Str (List Nat))
  deriving Repr

/-- The oracle inputs of one `do_execute` run: the three successive
`start.elapsed()` reads (after the response head, after the body, and for
the total), and the network outcome. -/
structure World where
  t1 : Nat
  t2 : Nat
  t3 : Nat
  net : NetPhase
  deriving Repr

/-- `HeaderMap::get_all(name)` filtered to valid-UTF-8 values, as the
Set-Cookie extraction does (header names are stored lowercase). -/
def headersGetAll (headers : List (Str × Option Str)) (name : Str) : List Str :=
  (headers.filter (fun kv => toLowerL kv.1 = name)).filterMap (·.2)

/-- The body classifier of `do_execute` (Content-Type dispatch). -/
def classifyBody (codec : Codec) (content_type : Str) (bytes : List Nat) :
    Except AppError ResponseBody :=
  if containsSub "application/json".toList content_type then
    if codec.jsonParses bytes then
      match codec.jsonPretty bytes with
      | Except.ok pretty => Except.ok (ResponseBody.text pretty)
      | Except.error e => Except.error (AppError.Json e)
    else Except.ok (ResponseBody.text (codec.utf8Lossy bytes))
  else if containsSub "text/".toList content_type
      || containsSub "application/xml".toList content_type
      || containsSub "application/xhtml".toList content_type
      || containsSub "application/javascript".toList content_type then
    Except.ok (ResponseBody.text (codec.utf8Lossy bytes))
  else if bytes = [] then Except.ok ResponseBody.empty
  else
    match codec.utf8Strict bytes with
    | some text => Except.ok (ResponseBody.text text)
    | none => Except.ok (ResponseBody.binary bytes)

/-- `do_execute` from src/http/executor.rs: build the request (a deferred
builder error surfaces here through `builder.build()` as an
`AppError::Http` of builder kind), send it, record time to first byte at
the response head, read the body, compute download time as the second
clock read minus ttfb and the total as the third clock read, classify the
body and assemble the `ResponseState`. -/
def do_execute (codec : Codec) (urlOk : Str → Bool) (w : World)
    (state : RequestState) : Except AppError ResponseState :=
  match (build_request urlOk state).buildFinal with
  | Except.error e => Except.error (AppError.Http HttpErrKind.builder e)
  | Except.ok _req =>
    match w.net with
    | NetPhase.connectErr m => Except.error (AppError.Http HttpErrKind.transport m)
    | NetPhase.ok status statusText headers bodyResult =>
      let ttfb_ms := w.t1
      let status_text := statusText.getD "Unknown".toList
      let headerList : List (Str × Str) := headers.map (fun kv => (kv.1, kv.2.getD []))
      let content_type :=
        ((headers.find? (fun kv => toLowerL kv.1 = "content-type".toList)).bind (·.2)).getD []
      let cookies := (headersGetAll headers "set-cookie".toList).map parse_set_cookie
      match bodyResult with
      | Except.error m => Except.error (AppError.Http HttpErrKind.transport m)
      | Except.ok bytes =>
        let download_ms := w.t2 - ttfb_ms
        let total_ms := w.t3
        let size_bytes := bytes.length
        match classifyBody codec content_type bytes with
        | Except.error e => Except.error e
        | Except.ok body =>
          Except.ok
            { status := status
              status_text := status_text
              headers := headerList
              body := body
              cookies := cookies
              timing :=
                { dns_lookup_ms := 0
                  tcp_connect_ms := 0
                  tls_handshake_ms := 0
                  time_to_first_byte_ms := ttfb_ms
                  download_ms := download_ms
                  total_ms := total_ms }
              size_bytes := size_bytes }

/-- `Event::Response` from src/event.rs (the only event the executor
emits). -/
inductive Event where
  | Response (result : Except AppError ResponseState)
  deriving Repr

/-- `execute` from src/http/executor.rs as a function of the race winner:
`tokio::select!` polls the network future against `cancel.cancelled()`;
the winning branch decides the delivered result, the loser is dropped. -/
def executeResult (codec : Codec) (urlOk : Str → Bool) (w : World)
    (state : RequestState) (cancelWins : Bool) : Except AppError ResponseState :=
  if cancelWins then Except.error AppError.Cancelled
  else do_execute codec urlOk w state

-- The `tokio::select!` race of `execute` as a small step relation, for the
-- temporal reading of the cancellation claim.

/-- State of the race inside `execute`: what has been delivered on the
channel (at most one result), and whether the cancellation branch was the
winner. -/
structure RaceState where
  delivered : Option (Except AppError ResponseState)
  cancelWon : Bool

/-- Initial race state: nothing delivered. -/
def raceInit : RaceState := ⟨none, false⟩

/-- The two possible commits of the `tokio::select!` in `execute`,
parameterised by the network result `res` that the network branch would
deliver: whichever branch completes first delivers its result; the other
future is dropped, so no second delivery ever happens. -/
inductive RaceStep (res : Except AppError ResponseState) : RaceState → RaceState → Prop
  | net (s : RaceState) (h : s.delivered = none) :
      RaceStep res s ⟨some res, false⟩
  | cancel (s : RaceState) (h : s.delivered = none) :
      RaceStep res s ⟨some (Except.error AppError.Cancelled), true⟩

/-- Reachability over the race's step relation. -/
def RaceReachable (res : Except AppError ResponseState) : RaceState → RaceState → Prop :=
  Relation.ReflTransGen (RaceStep res)

-- ─── src/app.rs: send orchestration ──────────────────────────────────────────

/-- `AppError`'s `Display` implementation (the `thiserror` format strings
of src/error.rs), as shown in the UI error status. -/
def AppError.toMsg : AppError → Str
  | AppError.Http _ m => "HTTP error: ".toList ++ m
  | AppError.Io m => "IO error: ".toList ++ m
  | AppError.Json m => "JSON error: ".toList ++ m
  | AppError.Timeout => "Request timed out".toList
  | AppError.Cancelled => "Request cancelled".toList
  | AppError.Other m => m

/-- `RequestStatus` from src/state/app_state.rs. -/
inductive RequestStatus where
  | Idle
  | Loading (spinner_tick : Nat)
  | Error (msg : Str)
  deriving DecidableEq, Repr

/-- `RequestTab` from src/state/workspace.rs, restricted to the fields
the send/response path touches. -/
structure RequestTab where
  request : RequestState
  response : Option ResponseState
  request_status : RequestStatus
  deriving DecidableEq, Repr

/-- The orchestrator state of `App` (src/app.rs): the single cancellation
slot `cancel` holds the id of the live `CancellationToken`, tokens being
identified by creation order; `cancelledTokens` records every token on
which `.cancel()` has been called; `dispatched` records the
`tokio::spawn`ed tasks as (token id, resolved request) pairs, most recent
first. -/
structure AppModel where
  cancel : Option Nat
  cancelledTokens : List Nat
  nextToken : Nat
  tabs : List RequestTab
  active_tab_idx : Nat
  dispatched : List (Nat × RequestState)
  deriving DecidableEq, Repr

/-- `AppState::active_tab`. -/
def AppModel.activeTab (app : AppModel) : Option RequestTab :=
  app.tabs[app.active_tab_idx]?

/-- `AppState::active_tab_mut` followed by a mutation: update the active
tab in place, a no-op when there is none. -/
def AppModel.modifyActiveTab (app : AppModel) (f : RequestTab → RequestTab) : AppModel :=
  match app.tabs[app.active_tab_idx]? with
  | some tab => { app with tabs := app.tabs.set app.active_tab_idx (f tab) }
  | none => app

/-- The send-time resolution step of `send_request`: the URL and the
enabled headers' keys and values go through `resolve_for_send` on a clone
of the active tab's request. -/
def resolveRequestForSend (r : EnvResolver) (req : RequestState) : RequestState :=
  { req with
    url := r.resolve_for_send req.url
    headers := req.headers.map (fun h =>
      if h.enabled then
        { h with key := r.resolve_for_send h.key, value := r.resolve_for_send h.value }
      else h) }

/-- `App::send_request` from src/app.rs: return immediately when there is
no active tab or its URL is empty; otherwise cancel and discard any
previously stored token, create and store a fresh one, mark the active
tab loading with its response cleared, resolve the request for send, and
dispatch the task.  The resolver argument stands for
`resolver_from_state(&self.state)`, built fresh from a state snapshot. -/
def send_request (r : EnvResolver) (app : AppModel) : AppModel :=
  let url_empty :=
    match app.activeTab with
    | some t => t.request.url.isEmpty
    | none => true
  if url_empty then app
  else
    let app :=
      match app.cancel with
      | some t => { app with cancel := none, cancelledTokens := t :: app.cancelledTokens }
      | none => app
    let token := app.nextToken
    let app := { app with cancel := some token, nextToken := app.nextToken + 1 }
    let app := app.modifyActiveTab
      (fun tab => { tab with request_status := RequestStatus.Loading 0, response := none })
    match app.activeTab with
    | some tab =>
      let req := resolveRequestForSend r tab.request
      { app with dispatched := (token, req) :: app.dispatched }
    | none => app

/-- `App::handle_response` from src/app.rs: clear the cancellation slot;
store a successful response on the active tab (status back to idle), turn
`Cancelled` into the idle status with no response stored, and any other
error into the error status carrying the error's display message.
(The syntax-highlight cache attachment and the copy back into the
collection tree touch only UI/persistence state outside this model.) -/
def handle_response (app : AppModel) (result : Except AppError ResponseState) : AppModel :=
  let app := { app with cancel := none }
  match result with
  | Except.ok response =>
    app.modifyActiveTab
      (fun tab => { tab with response := some response, request_status := RequestStatus.Idle })
  | Except.error AppError.Cancelled =>
    app.modifyActiveTab (fun tab => { tab with request_status := RequestStatus.Idle })
  | Except.error e =>
    app.modifyActiveTab
      (fun tab => { tab with request_status := RequestStatus.Error e.toMsg })

/-- Well-formedness of the orchestrator state: every recorded token id is
below the creation counter and the live token, if any, has never been
cancelled. -/
def AppModel.WF (app : AppModel) : Prop :=
  (∀ t ∈ app.cancelledTokens, t < app.nextToken) ∧
  (∀ t ∈ app.cancel.toList, t < app.nextToken ∧ t ∉ app.cancelledTokens)

instance (app : AppModel) : Decidable app.WF := by
  unfold AppModel.WF
  infer_instance

-- ─── helper lemmas ───────────────────────────────────────────────────────────

lemma startsWithL_iff (p l : Str) : startsWithL p l = true ↔ ∃ rest, l = p ++ rest := by
  induction p generalizing l with
  | nil =>
    simp only [startsWithL, List.nil_append, true_iff]
    exact ⟨l, rfl⟩
  | cons c cs ih =>
    cases l with
    | nil => simp [startsWithL]
    | cons x xs =>
      by_cases h : c = x
      · subst h
        simp [startsWithL, ih]
      · simp only [startsWithL, if_neg h, Bool.false_eq_true, false_iff]
        rintro ⟨rest, hr⟩
        cases hr
        exact h rfl

lemma httpL : "http://".toList = ['h', 't', 't', 'p', ':', '/', '/'] := rfl

lemma httpsL : "https://".toList = ['h', 't', 't', 'p', 's', ':', '/', '/'] := rfl

lemma localhostL :
    "localhost".toList = ['l', 'o', 'c', 'a', 'l', 'h', 'o', 's', 't'] := rfl

lemma loopbackL : "127.0.0.1".toList = ['1', '2', '7', '.', '0', '.', '0', '.', '1'] := rfl

-- ─── C5: URL normalisation ───────────────────────────────────────────────────

/-- C5 counterexample: the claim omits trimming and the empty-input case.
The empty string starts with none of the listed prefixes, so the claim
as stated requires the result to be the input prefixed with the https
scheme; the source returns the (trimmed) empty input unchanged. -/
theorem C5_counterexample :
    ¬ (normalize_url [] = "https://".toList ++ ([] : Str)) := by decide

/-- C5 (amended): `normalize_url` first trims white space and returns a
trimmed empty input unchanged; on a non-empty trimmed input the claimed
clauses hold with the result built from the trimmed string: absolute
http/https inputs come back unchanged, a leading colon gets the
localhost scheme-and-host prefix, a leading `localhost` or loopback
literal gets the http scheme, anything else the https scheme; the three
concrete examples of the claim evaluate as stated. -/
theorem C5_normalize_url_amended (url : Str) :
    (trimL url = [] → normalize_url url = []) ∧
    (startsWithL "http://".toList (trimL url) = true ∨
        startsWithL "https://".toList (trimL url) = true →
      normalize_url url = trimL url) ∧
    (startsWithL [':'] (trimL url) = true →
      normalize_url url = "http://localhost".toList ++ trimL url) ∧
    (startsWithL "localhost".toList (trimL url) = true ∨
        startsWithL "127.0.0.1".toList (trimL url) = true →
      normalize_url url = "http://".toList ++ trimL url) ∧
    (trimL url ≠ [] →
      startsWithL [':'] (trimL url) = false →
      startsWithL "http://".toList (trimL url) = false →
      startsWithL "https://".toList (trimL url) = false →
      startsWithL "localhost".toList (trimL url) = false →
      startsWithL "127.0.0.1".toList (trimL url) = false →
      normalize_url url = "https://".toList ++ trimL url) ∧
    normalize_url (':' :: "3000/x".toList) = "http://localhost:3000/x".toList ∧
    normalize_url "example.com".toList = "https://example.com".toList ∧
    normalize_url "http://x".toList = "http://x".toList := by
  refine ⟨?_, ?_, ?_, ?_, ?_, by decide, by decide, by decide⟩
  · intro h
    simp [normalize_url, h]
  · rintro (h | h)
    · obtain ⟨rest, hr⟩ := (startsWithL_iff _ _).1 h
      rw [httpL] at hr
      simp +decide [normalize_url, hr, startsWithL]
    · obtain ⟨rest, hr⟩ := (startsWithL_iff _ _).1 h
      rw [httpsL] at hr
      simp +decide [normalize_url, hr, startsWithL]
  · intro h
    obtain ⟨rest, hr⟩ := (startsWithL_iff _ _).1 h
    simp +decide [normalize_url, hr, startsWithL]
  · rintro (h | h)
    · obtain ⟨rest, hr⟩ := (startsWithL_iff _ _).1 h
      rw [localhostL] at hr
      simp +decide [normalize_url, hr, startsWithL]
    · obtain ⟨rest, hr⟩ := (startsWithL_iff _ _).1 h
      rw [loopbackL] at hr
      simp +decide [normalize_url, hr, startsWithL]
  · intro h hc hh hhs hl hlp
    rw [httpL] at hh
    rw [httpsL] at hhs
    rw [localhostL] at hl
    rw [loopbackL] at hlp
    simp [normalize_url, h, hc, hh, hhs, hl, hlp]

/-- C5 witness: the amended clauses evaluated at a concrete input with
surrounding white space. -/
theorem C5_witness :
    normalize_url (' ' :: "example.com ".toList) = "https://example.com".toList := by
  have h := (C5_normalize_url_amended (' ' :: "example.com ".toList)).2.2.2.2.1
  rw [show trimL (' ' :: "example.com ".toList) = "example.com".toList from by decide] at h
  exact h (by decide) (by decide) (by decide) (by decide) (by decide) (by decide)

-- ─── C10: empty-URL send is a no-op ──────────────────────────────────────────

/-- C10: when the active tab's URL is the empty string, or no tab is
active, `send_request` returns the orchestrator state unchanged: the
stored cancellation handle is neither cancelled nor replaced, no tab's
status or response changes, and nothing is dispatched. -/
theorem C10_send_request_empty_url_noop (r : EnvResolver) (app : AppModel)
    (h : app.activeTab.elim true (fun t => t.request.url.isEmpty) = true) :
    send_request r app = app := by
  unfold send_request
  cases ht : app.activeTab with
  | none => simp [ht]
  | some t =>
    rw [ht] at h
    simp only [Option.elim] at h
    simp [ht, h]

/-- A request state with an empty URL, for the C10 witness. -/
def emptyUrlRequest : RequestState :=
  ⟨HttpMethod.get, [], [], [], RequestBody.none, AuthConfig.none⟩

/-- An orchestrator state with an in-flight request (live token 3) and an
empty active-tab URL, for the C10 witness. -/
def c10App : AppModel :=
  ⟨some 3, [1], 4, [⟨emptyUrlRequest, none, RequestStatus.Loading 0⟩], 0, [(3, emptyUrlRequest)]⟩

/-- C10 witness: a send attempt with an empty URL leaves a state with an
in-flight request completely unchanged. -/
theorem C10_witness : send_request (EnvResolver.mk [] []) c10App = c10App :=
  C10_send_request_empty_url_noop (EnvResolver.mk [] []) c10App (by decide)

-- ─── C6: cancellation race never delivers a response ─────────────────────────

/-- C6: over the step relation of the `tokio::select!` race in `execute`,
whenever the cancellation branch won, the delivered outcome is exactly
`Cancelled`; a reachable state in which cancellation won but a
`ResponseState` was delivered does not exist — the in-progress network
result (`do_execute`'s value) is discarded. -/
theorem C6_cancel_wins_delivers_cancelled (codec : Codec) (urlOk : Str → Bool)
    (w : World) (state : RequestState) (s : RaceState)
    (hreach : RaceReachable (do_execute codec urlOk w state) raceInit s)
    (hwon : s.cancelWon = true) :
    s.delivered = some (Except.error AppError.Cancelled) ∧
    ∀ resp : ResponseState, s.delivered ≠ some (Except.ok resp) := by
  induction hreach with
  | refl => simp [raceInit] at hwon
  | tail _ hstep _ =>
    cases hstep with
    | net h => simp at hwon
    | cancel h => exact ⟨rfl, fun resp hresp => by simp at hresp⟩

instance {α β : Type} [DecidableEq α] [DecidableEq β] : DecidableEq (Except α β) :=
  fun x y =>
    match x, y with
    | Except.error a, Except.error b =>
      if h : a = b then isTrue (by rw [h]) else isFalse (by intro hc; cases hc; exact h rfl)
    | Except.ok a, Except.ok b =>
      if h : a = b then isTrue (by rw [h]) else isFalse (by intro hc; cases hc; exact h rfl)
    | Except.error _, Except.ok _ => isFalse (by intro hc; cases hc)
    | Except.ok _, Except.error _ => isFalse (by intro hc; cases hc)

/-- A trivial external codec for concrete executor runs. -/
def demoCodec : Codec :=
  ⟨fun _ => false, fun _ => Except.ok [], fun _ => [], fun _ => none⟩

/-- A minimal request descriptor with URL `x`. -/
def demoState : RequestState :=
  ⟨HttpMethod.get, ['x'], [], [], RequestBody.none, AuthConfig.none⟩

/-- A world in which the network side would fail to connect. -/
def demoWorld : World := ⟨0, 0, 0, NetPhase.connectErr []⟩

/-- C6 witness: after the cancellation branch commits from the initial
state, the delivered outcome is `Cancelled` and not a response. -/
theorem C6_witness :
    (RaceState.mk (some (Except.error AppError.Cancelled)) true).delivered
        = some (Except.error AppError.Cancelled) ∧
    (RaceState.mk (some (Except.error AppError.Cancelled)) true).delivered
        ≠ some (Except.ok (ResponseState.mk 200 [] [] ResponseBody.empty []
            (RequestTiming.mk 0 0 0 0 0 0) 0)) := by
  have h := C6_cancel_wins_delivers_cancelled demoCodec (fun _ => true) demoWorld demoState
    (RaceState.mk (some (Except.error AppError.Cancelled)) true)
    (Relation.ReflTransGen.single (RaceStep.cancel raceInit rfl)) rfl
  exact ⟨h.1, h.2 _⟩

-- ─── C4: timing arithmetic ───────────────────────────────────────────────────

/-- A successful minimal network outcome with distinct post-body clock
reads (the second and third `start.elapsed()` calls return 5 and 7). -/
def c4World : World := ⟨1, 5, 7, NetPhase.ok 200 none [] (Except.ok [])⟩

/-- The response `do_execute` produces in `c4World`. -/
def c4Resp : ResponseState :=
  ⟨200, "Unknown".toList, [], ResponseBody.empty, [], ⟨0, 0, 0, 1, 4, 7⟩, 0⟩

/-- C4 counterexample: a successful execution with monotone clock reads
in which `download_ms` is not `total_ms - time_to_first_byte_ms`: the
source computes download from the second clock read and total from a
separate third read, so the claimed identity fails whenever time passes
between the two. -/
theorem C4_counterexample :
    do_execute demoCodec (fun _ => true) c4World demoState = Except.ok c4Resp ∧
    c4World.t1 ≤ c4World.t2 ∧ c4World.t2 ≤ c4World.t3 ∧
    c4Resp.timing.download_ms ≠
      c4Resp.timing.total_ms - c4Resp.timing.time_to_first_byte_ms := by decide

/-- C4 (amended): on every successful completion, `time_to_first_byte_ms`
is the first clock read, `download_ms` is the second clock read minus
ttfb, and `total_ms` is the separate third clock read; under monotone
clocks `download_ms ≤ total_ms - ttfb`, with equality exactly when the
second and third reads coincide (the two calls are adjacent statements,
so they usually do, but the identity is not exact in general). -/
theorem C4_timing_amended (codec : Codec) (urlOk : Str → Bool) (w : World)
    (state : RequestState) (resp : ResponseState)
    (hok : do_execute codec urlOk w state = Except.ok resp)
    (h12 : w.t1 ≤ w.t2) (h23 : w.t2 ≤ w.t3) :
    resp.timing.time_to_first_byte_ms = w.t1 ∧
    resp.timing.download_ms = w.t2 - w.t1 ∧
    resp.timing.total_ms = w.t3 ∧
    resp.timing.download_ms ≤ resp.timing.total_ms - resp.timing.time_to_first_byte_ms ∧
    (w.t2 = w.t3 →
      resp.timing.download_ms = resp.timing.total_ms - resp.timing.time_to_first_byte_ms) := by
  unfold do_execute at hok
  split at hok
  · exact absurd hok (by simp)
  · split at hok
    · exact absurd hok (by simp)
    · split at hok
      · exact absurd hok (by simp)
      · dsimp only at hok
        split at hok
        · exact absurd hok (by simp)
        · injection hok with hok
          subst hok
          refine ⟨rfl, rfl, rfl, ?_, ?_⟩
          · simp only
            omega
          · intro h
            simp only
            omega

/-- C4 witness for the amended claim: the successful run of the
counterexample world satisfies the three clock-read equations. -/
theorem C4_witness :
    c4Resp.timing.time_to_first_byte_ms = c4World.t1 ∧
    c4Resp.timing.download_ms = c4World.t2 - c4World.t1 ∧
    c4Resp.timing.total_ms = c4World.t3 := by
  have h := C4_timing_amended demoCodec (fun _ => true) c4World demoState c4Resp
    (by decide) (by decide) (by decide)
  exact ⟨h.1, h.2.1, h.2.2.1⟩

-- ─── C2: single live cancellation handle ─────────────────────────────────────

lemma send_request_eq (r : EnvResolver) (app : AppModel) (t : RequestTab)
    (ht : app.activeTab = some t) (hurl : t.request.url ≠ []) :
    send_request r app =
      { cancel := some app.nextToken,
        cancelledTokens :=
          match app.cancel with
          | some tok => tok :: app.cancelledTokens
          | none => app.cancelledTokens,
        nextToken := app.nextToken + 1,
        tabs := app.tabs.set app.active_tab_idx
          { t with request_status := RequestStatus.Loading 0, response := none },
        active_tab_idx := app.active_tab_idx,
        dispatched := (app.nextToken, resolveRequestForSend r t.request) :: app.dispatched } := by
  obtain ⟨cancel, cancelled, next, tabs, idx, disp⟩ := app
  simp only [AppModel.activeTab] at ht
  have hset : (tabs.set idx
      { t with request_status := RequestStatus.Loading 0, response := none })[idx]?
        = some { t with request_status := RequestStatus.Loading 0, response := none } := by
    have hlt : idx < tabs.length := by
      by_contra hge
      rw [List.getElem?_eq_none (by omega)] at ht
      exact Option.noConfusion ht
    simp [List.getElem?_set, hlt]
  have hne : t.request.url.isEmpty = false := by
    cases hu : t.request.url
    · exact absurd hu hurl
    · rfl
  unfold send_request
  simp only [AppModel.activeTab, AppModel.modifyActiveTab, ht, hne]
  cases cancel with
  | none => simp [ht, hset]
  | some tok => simp [ht, hset]

lemma getElem?_set_of_some {α : Type} {l : List α} {i : Nat} {b : α}
    (h : l[i]? = some b) (a : α) : (l.set i a)[i]? = some a := by
  have hlt : i < l.length := by
    by_contra hge
    rw [List.getElem?_eq_none (by omega)] at h
    exact Option.noConfusion h
  simp [List.getElem?_set, hlt]

lemma modifyActiveTab_activeTab (app : AppModel) (f : RequestTab → RequestTab)
    (t : RequestTab) (ht : app.activeTab = some t) :
    (app.modifyActiveTab f).activeTab = some (f t) := by
  unfold AppModel.activeTab at ht ⊢
  unfold AppModel.modifyActiveTab
  rw [ht]
  exact getElem?_set_of_some ht (f t)

/-- C2: the orchestrator keeps at most one live cancellation handle.  A
send that proceeds first cancels the stored token, if any, and stores the
fresh token `app.nextToken` (never previously cancelled) before recording
exactly one new dispatch carrying that token.  After a second immediate
send the first send's token is cancelled and only the second's is live;
a race the cancellation side wins delivers `Cancelled`, and handling a
`Cancelled` delivery stores no response on the active tab, so only the
second send's successful result is ever observed there. -/
theorem C2_single_live_handle (r1 r2 : EnvResolver) (app : AppModel) (t : RequestTab)
    (hwf : app.WF) (ht : app.activeTab = some t) (hurl : t.request.url ≠ []) :
    (∀ tok, app.cancel = some tok → tok ∈ (send_request r1 app).cancelledTokens) ∧
    (send_request r1 app).cancel = some app.nextToken ∧
    app.nextToken ∉ (send_request r1 app).cancelledTokens ∧
    (send_request r1 app).dispatched
      = (app.nextToken, resolveRequestForSend r1 t.request) :: app.dispatched ∧
    app.nextToken ∈ (send_request r2 (send_request r1 app)).cancelledTokens ∧
    (send_request r2 (send_request r1 app)).cancel = some (app.nextToken + 1) ∧
    app.nextToken + 1 ∉ (send_request r2 (send_request r1 app)).cancelledTokens ∧
    (send_request r2 (send_request r1 app)).dispatched
      = (app.nextToken + 1, resolveRequestForSend r2 t.request)
        :: (app.nextToken, resolveRequestForSend r1 t.request) :: app.dispatched ∧
    (∀ codec urlOk w st,
      executeResult codec urlOk w st true = Except.error AppError.Cancelled) ∧
    (∀ tab, (handle_response (send_request r2 (send_request r1 app))
        (Except.error AppError.Cancelled)).activeTab = some tab → tab.response = none) ∧
    (∀ resp tab, (handle_response (send_request r2 (send_request r1 app))
        (Except.ok resp)).activeTab = some tab → tab.response = some resp) := by
  have h1 := send_request_eq r1 app t ht hurl
  set t1 : RequestTab :=
    { t with request_status := RequestStatus.Loading 0, response := none } with ht1def
  have ht1 : (send_request r1 app).activeTab = some t1 := by
    rw [h1]
    unfold AppModel.activeTab
    exact getElem?_set_of_some ht t1
  have hurl1 : t1.request.url ≠ [] := hurl
  have h2 := send_request_eq r2 (send_request r1 app) t1 ht1 hurl1
  set t2 : RequestTab :=
    { t1 with request_status := RequestStatus.Loading 0, response := none } with ht2def
  have ht2 : (send_request r2 (send_request r1 app)).activeTab = some t2 := by
    rw [h2]
    unfold AppModel.activeTab
    exact getElem?_set_of_some ht1 t2
  obtain ⟨hwfc, hwflive⟩ := hwf
  refine ⟨?_, ?_, ?_, ?_, ?_, ?_, ?_, ?_, ?_, ?_, ?_⟩
  · intro tok htok
    rw [h1, htok]
    exact List.mem_cons_self _ _
  · rw [h1]
  · rw [h1]
    cases hc : app.cancel with
    | none =>
      simp only
      intro hmem
      exact absurd (hwfc _ hmem) (by omega)
    | some tok =>
      simp only [List.mem_cons]
      rintro (heq | hmem)
      · have := (hwflive tok (by simp [hc])).1
        omega
      · exact absurd (hwfc _ hmem) (by omega)
  · rw [h1]
  · rw [h2, h1]
    simp
  · rw [h2, h1]
  · rw [h2, h1]
    cases hc : app.cancel with
    | none =>
      simp only [List.mem_cons]
      rintro (heq | hmem)
      · omega
      · exact absurd (hwfc _ hmem) (by omega)
    | some tok =>
      simp only [List.mem_cons]
      rintro (heq | heq2 | hmem)
      · omega
      · have := (hwflive tok (by simp [hc])).1
        omega
      · exact absurd (hwfc _ hmem) (by omega)
  · rw [h2, h1]
  · intro codec urlOk w st
    rfl
  · intro tab htab
    unfold handle_response at htab
    rw [modifyActiveTab_activeTab _ _ t2 (by exact ht2)] at htab
    injection htab with htab
    rw [← htab]
  · intro resp tab htab
    unfold handle_response at htab
    rw [modifyActiveTab_activeTab _ _ t2 (by exact ht2)] at htab
    injection htab with htab
    rw [← htab]

/-- An orchestrator state with a live token 5, a previously cancelled
token 3, and a non-empty active-tab URL, for the C2 witness. -/
def c2App : AppModel :=
  ⟨some 5, [3], 6, [⟨demoState, none, RequestStatus.Idle⟩], 0, []⟩

/-- C2 witness: two immediate sends on `c2App`: the first cancels token 5
and stores fresh token 6; the second cancels token 6 and stores fresh
token 7. -/
theorem C2_witness :
    5 ∈ (send_request (EnvResolver.mk [] []) c2App).cancelledTokens ∧
    (send_request (EnvResolver.mk [] []) c2App).cancel = some 6 ∧
    6 ∉ (send_request (EnvResolver.mk [] []) c2App).cancelledTokens ∧
    6 ∈ (send_request (EnvResolver.mk [] [])
      (send_request (EnvResolver.mk [] []) c2App)).cancelledTokens ∧
    (send_request (EnvResolver.mk [] [])
      (send_request (EnvResolver.mk [] []) c2App)).cancel = some 7 := by
  have h := C2_single_live_handle (EnvResolver.mk [] []) (EnvResolver.mk [] []) c2App
    ⟨demoState, none, RequestStatus.Idle⟩ (by decide) (by decide) (by decide)
  exact ⟨h.1 5 rfl, h.2.1, h.2.2.1, h.2.2.2.2.1, h.2.2.2.2.2.1⟩

-- ─── C9: Set-Cookie parsing ──────────────────────────────────────────────────

lemma splitFirst_fst (sep : Char) (l : Str) :
    (splitFirst sep l).1 = l.takeWhile (fun c => c ≠ sep) := by
  induction l with
  | nil => rfl
  | cons c rest ih =>
    by_cases h : c = sep
    · subst h
      simp [splitFirst, List.takeWhile_cons]
    · simp [splitFirst, List.takeWhile_cons, h, ih]

lemma splitFirst_snd_getD (sep : Char) (l : Str) :
    (splitFirst sep l).2.getD [] = (l.dropWhile (fun c => c ≠ sep)).drop 1 := by
  induction l with
  | nil => rfl
  | cons c rest ih =>
    by_cases h : c = sep
    · subst h
      simp [splitFirst, List.dropWhile_cons]
    · simp [splitFirst, List.dropWhile_cons, h, ih]

lemma stripPreL_eq_some_iff (p l r : Str) : stripPreL p l = some r ↔ l = p ++ r := by
  induction p generalizing l with
  | nil =>
    simp only [stripPreL, List.nil_append, Option.some.injEq]
  | cons c cs ih =>
    cases l with
    | nil => simp [stripPreL]
    | cons x xs =>
      by_cases h : c = x
      · subst h
        simp [stripPreL, ih]
      · simp only [stripPreL, if_neg h]
        constructor
        · intro hc; exact absurd hc (by simp)
        · intro hc
          cases hc
          exact absurd rfl h

lemma domainPrefixL : "Domain=".toList = ['D', 'o', 'm', 'a', 'i', 'n', '='] := rfl

lemma pathPrefixL : "Path=".toList = ['P', 'a', 't', 'h', '='] := rfl

lemma cookieAttrs_foldl (attrs : List Str) (d p : Str) :
    attrs.foldl
      (fun (dp : Str × Str) attr =>
        let attr := trimL attr
        match stripPreL "Domain=".toList attr with
        | some d2 => (d2, dp.2)
        | none =>
          match stripPreL "Path=".toList attr with
          | some p2 => (dp.1, p2)
          | none => dp) (d, p)
    = ((attrs.filterMap (fun a => stripPreL "Domain=".toList (trimL a))).getLastD d,
       (attrs.filterMap (fun a => stripPreL "Path=".toList (trimL a))).getLastD p) := by
  induction attrs generalizing d p with
  | nil => rfl
  | cons a as ih =>
    simp only [List.foldl_cons, List.filterMap_cons]
    cases hd : stripPreL "Domain=".toList (trimL a) with
    | some d2 =>
      have hpath : stripPreL "Path=".toList (trimL a) = none := by
        have := (stripPreL_eq_some_iff _ _ _).1 hd
        rw [domainPrefixL] at this
        rw [this, pathPrefixL]
        simp [stripPreL]
      rw [hpath]
      simp only [hd]
      rw [ih]
      rw [List.getLastD_cons]
    | none =>
      cases hp : stripPreL "Path=".toList (trimL a) with
      | some p2 =>
        simp only [hd, hp]
        rw [ih]
        rw [List.getLastD_cons]
      | none =>
        simp only [hd, hp]
        exact ih d p

/-- C9: `parse_set_cookie` is total on arbitrary (malformed) header text —
it is a plain function into `Cookie`, never panicking — and for every
header string: the name is the trimmed text before the first `=` of the
part before the first `;`, the value the trimmed text after that `=`
(empty when there is no `=`), the domain the value of the last `Domain=`
attribute (default empty), the path the value of the last `Path=`
attribute (default `/`), all other attributes ignored; and on a
successful execution the executor parses each valid-UTF-8 `Set-Cookie`
header independently, in header order. -/
theorem C9_parse_set_cookie_spec (header : Str) :
    (parse_set_cookie header).name
      = trimL ((header.takeWhile (fun c => c ≠ ';')).takeWhile (fun c => c ≠ '=')) ∧
    (parse_set_cookie header).value
      = trimL (((header.takeWhile (fun c => c ≠ ';')).dropWhile (fun c => c ≠ '=')).drop 1) ∧
    (parse_set_cookie header).domain
      = ((splitAll ';' ((splitFirst ';' header).2.getD [])).filterMap
          (fun a => stripPreL "Domain=".toList (trimL a))).getLastD [] ∧
    (parse_set_cookie header).path
      = ((splitAll ';' ((splitFirst ';' header).2.getD [])).filterMap
          (fun a => stripPreL "Path=".toList (trimL a))).getLastD ['/'] ∧
    (∀ codec urlOk t1 t2 t3 status stext hs bytes st resp,
      do_execute codec urlOk ⟨t1, t2, t3, NetPhase.ok status stext hs (Except.ok bytes)⟩ st
        = Except.ok resp →
      resp.cookies = (headersGetAll hs ("set-cookie".toList)).map parse_set_cookie) := by
  refine ⟨?_, ?_, ?_, ?_, ?_⟩
  · unfold parse_set_cookie
    simp only [splitFirst_fst]
  · unfold parse_set_cookie
    simp only [splitFirst_fst, splitFirst_snd_getD]
  · unfold parse_set_cookie
    simp only [cookieAttrs_foldl]
  · unfold parse_set_cookie
    simp only [cookieAttrs_foldl]
  · intro codec urlOk t1 t2 t3 status stext hs bytes st resp hok
    unfold do_execute at hok
    split at hok
    · exact absurd hok (by simp)
    · dsimp only at hok
      split at hok
      · exact absurd hok (by simp)
      · injection hok with hok
        subst hok
        rfl

/-- The response produced in the C9 witness run: one Set-Cookie header
`a=b; Path=/p` parsed into a cookie with default domain and path `/p`. -/
def c9Resp : ResponseState :=
  ⟨200, "Unknown".toList, [("Set-Cookie".toList, "a=b; Path=/p".toList)],
   ResponseBody.empty, [⟨['a'], ['b'], [], "/p".toList⟩], ⟨0, 0, 0, 0, 0, 0⟩, 0⟩

/-- C9 witness: a successful execution with one Set-Cookie header yields
exactly its parsed cookie. -/
theorem C9_witness :
    c9Resp.cookies
      = (headersGetAll [("Set-Cookie".toList, some "a=b; Path=/p".toList)]
          ("set-cookie".toList)).map parse_set_cookie :=
  (C9_parse_set_cookie_spec []).2.2.2.2 demoCodec (fun _ => true) 0 0 0 200 none
    [("Set-Cookie".toList, some "a=b; Path=/p".toList)] [] demoState c9Resp (by decide)

-- ─── C3: build errors vs transport errors ────────────────────────────────────

/-- The claim's characterisation of "the underlying request-construction
step fails": the URL does not parse, or some enabled non-empty-key header
is invalid, or the auth step produces an invalid header. -/
def ConstructionFails (urlOk : Str → Bool) (st : RequestState) : Prop :=
  urlOk (normalize_url st.url) = false ∨
  (∃ h ∈ st.headers, h.enabled = true ∧ h.key ≠ [] ∧ headerOk h.key h.value = false) ∨
  (match st.auth with
   | AuthConfig.none => False
   | AuthConfig.bearer token => headerOk "authorization".toList (bearerAuthValue token) = false
   | AuthConfig.basic u p => headerOk "authorization".toList (basicAuthValue u p) = false
   | AuthConfig.apiKey k v inH => inH = true ∧ headerOk k v = false)

lemma query_err (b : ReqBuilder) (k v : Str) : (b.query k v).err = b.err := by
  unfold ReqBuilder.query
  split <;> rfl

lemma setBody_err (b : ReqBuilder) (body : RequestBody) : (b.setBody body).err = b.err := by
  unfold ReqBuilder.setBody
  split <;> rfl

lemma header_err_none_iff (b : ReqBuilder) (k v : Str) :
    (b.header k v).err = none ↔ b.err = none ∧ headerOk k v = true := by
  unfold ReqBuilder.header
  cases hb : b.err with
  | some e => simp [hb]
  | none =>
    simp only [hb, Option.isSome_none, Bool.false_eq_true, if_false, true_and]
    by_cases hk : headerOk k v = true
    · simp [hk]
    · simp [hk]

lemma params_fold_err (ps : List KeyValuePair) (b : ReqBuilder) :
    (ps.foldl (fun b p => if p.enabled && p.key ≠ [] then b.query p.key p.value else b) b).err
      = b.err := by
  induction ps generalizing b with
  | nil => rfl
  | cons p ps ih =>
    simp only [List.foldl_cons]
    split
    · rw [ih, query_err]
    · rw [ih]

lemma headers_fold_err_none_iff (hs : List KeyValuePair) (b : ReqBuilder) :
    ((hs.foldl (fun b h => if h.enabled && h.key ≠ [] then b.header h.key h.value else b) b).err
        = none)
      ↔ (b.err = none ∧
          ∀ h ∈ hs, h.enabled = true → h.key ≠ [] → headerOk h.key h.value = true) := by
  induction hs generalizing b with
  | nil => simp
  | cons h hs ih =>
    simp only [List.foldl_cons]
    by_cases hc : h.enabled && h.key ≠ []
    · rw [if_pos hc, ih, header_err_none_iff]
      rw [Bool.and_eq_true] at hc
      obtain ⟨he1, hk1⟩ := hc
      have hc : h.enabled = true ∧ h.key ≠ [] := ⟨he1, by simpa using hk1⟩
      constructor
      · rintro ⟨⟨hb, hok⟩, hrest⟩
        refine ⟨hb, ?_⟩
        intro h2 hmem he hk
        rcases List.mem_cons.1 hmem with rfl | hmem2
        · exact hok
        · exact hrest h2 hmem2 he hk
      · rintro ⟨hb, hall⟩
        exact ⟨⟨hb, hall h (List.mem_cons_self _ _) hc.1 hc.2⟩,
          fun h2 hmem he hk => hall h2 (List.mem_cons_of_mem _ hmem) he hk⟩
    · rw [if_neg hc, ih]
      have hc' : ¬ (h.enabled = true ∧ h.key ≠ []) := by
        rintro ⟨he, hk⟩
        exact hc (by simp [he, hk])
      constructor
      · rintro ⟨hb, hrest⟩
        refine ⟨hb, ?_⟩
        intro h2 hmem he hk
        rcases List.mem_cons.1 hmem with rfl | hmem2
        · exact absurd ⟨he, hk⟩ hc'
        · exact hrest h2 hmem2 he hk
      · rintro ⟨hb, hall⟩
        exact ⟨hb, fun h2 hmem he hk => hall h2 (List.mem_cons_of_mem _ hmem) he hk⟩

lemma clientRequest_err_none_iff (urlOk : Str → Bool) (m : HttpMethod) (url : Str) :
    (clientRequest urlOk m url).err = none ↔ urlOk url = true := by
  unfold clientRequest
  by_cases h : urlOk url = true
  · simp [h]
  · simp [h]

lemma ctTextOk : headerOk "Content-Type".toList "text/plain".toList = true := by decide

lemma ctJsonOk : headerOk "Content-Type".toList "application/json".toList = true := by decide

lemma ctFormOk :
    headerOk "Content-Type".toList "application/x-www-form-urlencoded".toList = true := by decide

/-- The auth configurations whose derived header reqwest accepts. -/
def AuthOk : AuthConfig → Prop
  | AuthConfig.none => True
  | AuthConfig.bearer token => headerOk "authorization".toList (bearerAuthValue token) = true
  | AuthConfig.basic u p => headerOk "authorization".toList (basicAuthValue u p) = true
  | AuthConfig.apiKey k v inH => inH = true → headerOk k v = true

lemma build_request_err_none_iff (urlOk : Str → Bool) (st : RequestState) :
    (build_request urlOk st).err = none ↔
      (urlOk (normalize_url st.url) = true ∧
       (∀ h ∈ st.headers, h.enabled = true → h.key ≠ [] → headerOk h.key h.value = true) ∧
       AuthOk st.auth) := by
  unfold build_request
  cases ha : st.auth <;> cases hb : st.body <;>
    simp only [setBody_err, header_err_none_iff, query_err, params_fold_err,
      headers_fold_err_none_iff, clientRequest_err_none_iff, AuthOk, ctTextOk, ctJsonOk,
      ctFormOk, and_true, iff_true, true_implies, implies_true] <;>
    try tauto
  all_goals
    split
    all_goals
      simp only [header_err_none_iff, query_err, params_fold_err, headers_fold_err_none_iff,
        clientRequest_err_none_iff, setBody_err, AuthOk, ctTextOk, ctJsonOk, ctFormOk, and_true]
    all_goals tauto

lemma classifyBody_error_is_json (codec : Codec) (ct : Str) (bytes : List Nat) (e : AppError)
    (h : classifyBody codec ct bytes = Except.error e) : ∃ m, e = AppError.Json m := by
  unfold classifyBody at h
  repeat' split at h
  all_goals
    first
      | exact Except.noConfusion h
      | (injection h with h; exact ⟨_, h.symm⟩)

lemma build_ok_no_builder_error (codec : Codec) (urlOk : Str → Bool) (w : World)
    (st : RequestState) (msg : Str) (hnone : (build_request urlOk st).err = none) :
    do_execute codec urlOk w st ≠ Except.error (AppError.Http HttpErrKind.builder msg) := by
  intro hcontra
  unfold do_execute at hcontra
  split at hcontra
  · rename_i e heq
    unfold ReqBuilder.buildFinal at heq
    rw [hnone] at heq
    exact Except.noConfusion heq
  · split at hcontra
    · injection hcontra with h
      injection h with h1 h2
      exact HttpErrKind.noConfusion h1
    · dsimp only at hcontra
      split at hcontra
      · injection hcontra with h
        injection h with h1 h2
        exact HttpErrKind.noConfusion h1
      · split at hcontra
        · rename_i e heq
          obtain ⟨m, rfl⟩ := classifyBody_error_is_json _ _ _ _ heq
          injection hcontra with h
          exact AppError.noConfusion h
        · exact Except.noConfusion hcontra

/-- C3: the delivered outcome is a build error exactly on descriptors
whose construction step fails: the deferred builder error (unparsable
URL, invalid enabled header, invalid auth-derived header) is surfaced by
`do_execute` as the builder-kind `Http` error with the recorded message;
descriptors whose construction succeeds never produce a builder-kind
error (network failures carry the transport kind, JSON pretty-printing
failures the `Json` variant); and a builder-kind error value is distinct
from every transport-kind error value. -/
theorem C3_build_error_dichotomy (codec : Codec) (urlOk : Str → Bool) (w : World)
    (st : RequestState) :
    ((build_request urlOk st).err ≠ none ↔ ConstructionFails urlOk st) ∧
    (∀ e, (build_request urlOk st).err = some e →
      do_execute codec urlOk w st = Except.error (AppError.Http HttpErrKind.builder e)) ∧
    ((build_request urlOk st).err = none →
      ∀ msg, do_execute codec urlOk w st ≠ Except.error (AppError.Http HttpErrKind.builder msg)) ∧
    (∀ m m', AppError.Http HttpErrKind.builder m ≠ AppError.Http HttpErrKind.transport m') := by
  refine ⟨?_, ?_, ?_, ?_⟩
  · rw [Ne, build_request_err_none_iff, not_and_or, not_and_or]
    unfold ConstructionFails
    refine or_congr ?_ (or_congr ?_ ?_)
    · simp [Bool.not_eq_true]
    · constructor
      · intro hh
        push_neg at hh
        obtain ⟨h2, hmem, he, hk, hok⟩ := hh
        exact ⟨h2, hmem, he, hk, by simpa using hok⟩
      · rintro ⟨h2, hmem, he, hk, hok⟩ hall
        have := hall h2 hmem he hk
        rw [this] at hok
        cases hok
    · cases st.auth <;> simp [AuthOk, Bool.not_eq_true, Classical.not_imp]
  · intro e he
    have hb : (build_request urlOk st).buildFinal = Except.error e := by
      unfold ReqBuilder.buildFinal
      rw [he]
    unfold do_execute
    rw [hb]
  · intro hnone msg
    exact build_ok_no_builder_error codec urlOk w st msg hnone
  · intro m m' h
    injection h with h1 h2
    exact HttpErrKind.noConfusion h1

/-- A descriptor with an enabled header whose value contains a newline,
so reqwest's header construction fails. -/
def c3State : RequestState :=
  ⟨HttpMethod.get, ['x'], [⟨"X-Test".toList, ['a', Char.ofNat 10, 'b'], true, []⟩], [],
   RequestBody.none, AuthConfig.none⟩

/-- C3 witness: on the invalid-header descriptor the delivered outcome is
the builder-kind error naming the offending header, and the descriptor
satisfies the construction-failure characterisation. -/
theorem C3_witness :
    do_execute demoCodec (fun _ => true) demoWorld c3State
      = Except.error (AppError.Http HttpErrKind.builder
          ("builder error: invalid header ".toList ++ "X-Test".toList)) ∧
    ConstructionFails (fun _ => true) c3State := by
  have h := C3_build_error_dichotomy demoCodec (fun _ => true) demoWorld c3State
  exact ⟨h.2.1 _ (by decide), h.1.1 (by decide)⟩

-- ─── C1/C7: resolver span machinery ──────────────────────────────────────────

/-- The segment `v[a..b]` of a string. -/
def segOf (v : Str) (a b : Nat) : Str := (v.drop a).take (b - a)

lemma segOf_app (x y t : Str) : segOf (x ++ (y ++ t)) x.length (x.length + y.length) = y := by
  unfold segOf
  rw [Nat.add_sub_cancel_left]
  rw [List.drop_left]
  exact List.take_left y t

lemma segOf_stable (x t : Str) (a b : Nat) (hb : b ≤ x.length) :
    segOf (x ++ t) a b = segOf x a b := by
  unfold segOf
  by_cases ha : a ≤ x.length
  · rw [List.drop_append_of_le_length ha]
    have hlen : b - a ≤ (x.drop a).length := by
      rw [List.length_drop]
      omega
    rw [List.take_append_of_le_length hlen]
  · have hba : b - a = 0 := by omega
    rw [hba]
    simp

/-- How one emitted `VarSpan` relates to the parsed span it came from:
same (trimmed) variable name, offsets inside the output string, and the
segment of the output it covers is the mask for a found secret, the
stored value for a found plain variable, or the original literal
placeholder text for an unresolved one. -/
def Corresponds (r : EnvResolver) (input v : Str) (pv : Nat × Nat × Str) (s : VarSpan) : Prop :=
  s.variable_name = pv.2.2 ∧
  s.start ≤ s.stop ∧ s.stop ≤ v.length ∧
  match r.lookup pv.2.2 with
  | some val =>
    if pv.2.2 ∈ r.secret_keys then
      s.status = VarStatus.Secret ∧ segOf v s.start s.stop = secretMask
    else
      s.status = VarStatus.Resolved val ∧ segOf v s.start s.stop = val
  | none =>
    s.status = VarStatus.Unresolved ∧ segOf v s.start s.stop = segOf input pv.1 pv.2.1

lemma Corresponds_extend (r : EnvResolver) (input x t : Str) (pv : Nat × Nat × Str)
    (s : VarSpan) (h : Corresponds r input x pv s) : Corresponds r input (x ++ t) pv s := by
  obtain ⟨hname, hab, hb, hrest⟩ := h
  refine ⟨hname, hab, by rw [List.length_append]; omega, ?_⟩
  rw [segOf_stable x t s.start s.stop hb]
  exact hrest

lemma resolveAux_value_prefix (r : EnvResolver) (input : Str) :
    ∀ (vs : List (Nat × Nat × Str)) (last : Nat) (out : Str) (spans : List VarSpan),
      ∃ tail, (r.resolveAux input vs last out spans).value = out ++ tail := by
  intro vs
  induction vs with
  | nil => exact fun last out spans => ⟨input.drop last, rfl⟩
  | cons pv rest ih =>
    intro last out spans
    obtain ⟨start, stop, name⟩ := pv
    unfold EnvResolver.resolveAux
    obtain ⟨tail, htail⟩ := ih stop
      (out ++ (input.drop last).take (start - last) ++
        (match r.lookup name with
         | some val =>
           if name ∈ r.secret_keys then (secretMask, VarStatus.Secret)
           else (val, VarStatus.Resolved val)
         | none => ((input.drop start).take (stop - start), VarStatus.Unresolved)).1)
      (spans ++ [⟨(out ++ (input.drop last).take (start - last)).length,
        (out ++ (input.drop last).take (start - last) ++
          (match r.lookup name with
           | some val =>
             if name ∈ r.secret_keys then (secretMask, VarStatus.Secret)
             else (val, VarStatus.Resolved val)
           | none => ((input.drop start).take (stop - start), VarStatus.Unresolved)).1).length,
        name,
        (match r.lookup name with
         | some val =>
           if name ∈ r.secret_keys then (secretMask, VarStatus.Secret)
           else (val, VarStatus.Resolved val)
         | none => ((input.drop start).take (stop - start), VarStatus.Unresolved)).2⟩])
    refine ⟨(input.drop last).take (start - last) ++
      (match r.lookup name with
       | some val =>
         if name ∈ r.secret_keys then (secretMask, VarStatus.Secret)
         else (val, VarStatus.Resolved val)
       | none => ((input.drop start).take (stop - start), VarStatus.Unresolved)).1 ++ tail, ?_⟩
    rw [htail]
    simp [List.append_assoc]

/-- The replacement text and status `resolve` computes for one parsed
span. -/
def resolveRepl (r : EnvResolver) (input : Str) (start stop : Nat) (name : Str) :
    Str × VarStatus :=
  match r.lookup name with
  | some val =>
    if name ∈ r.secret_keys then (secretMask, VarStatus.Secret)
    else (val, VarStatus.Resolved val)
  | none => ((input.drop start).take (stop - start), VarStatus.Unresolved)

lemma resolveAux_cons (r : EnvResolver) (input : Str) (start stop : Nat) (name : Str)
    (rest : List (Nat × Nat × Str)) (last : Nat) (out : Str) (spans : List VarSpan) :
    r.resolveAux input ((start, stop, name) :: rest) last out spans =
      r.resolveAux input rest stop
        (out ++ (input.drop last).take (start - last) ++
          (resolveRepl r input start stop name).1)
        (spans ++ [⟨(out ++ (input.drop last).take (start - last)).length,
          (out ++ (input.drop last).take (start - last) ++
            (resolveRepl r input start stop name).1).length,
          name, (resolveRepl r input start stop name).2⟩]) := by
  simp only [EnvResolver.resolveAux, resolveRepl]

lemma resolveAux_spans_forall2 (r : EnvResolver) (input : Str) :
    ∀ (vs : List (Nat × Nat × Str)) (last : Nat) (out : Str) (acc : List VarSpan),
      ∃ news, (r.resolveAux input vs last out acc).spans = acc ++ news ∧
        List.Forall₂ (Corresponds r input (r.resolveAux input vs last out acc).value) vs news := by
  intro vs
  induction vs with
  | nil =>
    intro last out acc
    exact ⟨[], by simp [EnvResolver.resolveAux], List.Forall₂.nil⟩
  | cons pv rest ih =>
    intro last out acc
    obtain ⟨start, stop, name⟩ := pv
    rw [resolveAux_cons]
    set out1 := out ++ (input.drop last).take (start - last) with hout1
    set rp := resolveRepl r input start stop name with hrp
    set s' : VarSpan := ⟨out1.length, (out1 ++ rp.1).length, name, rp.2⟩ with hs'
    obtain ⟨news', hspans, hfa⟩ := ih stop (out1 ++ rp.1) (acc ++ [s'])
    refine ⟨s' :: news', ?_, ?_⟩
    · rw [hspans, List.append_assoc]
      rfl
    · refine List.Forall₂.cons ?_ hfa
      obtain ⟨tail, htail⟩ :=
        resolveAux_value_prefix r input rest stop (out1 ++ rp.1) (acc ++ [s'])
    -- hmm htail is about the recursive call's value; the Forall₂ target value is the same term
      rw [htail]
      have hseg : segOf ((out1 ++ rp.1) ++ tail) s'.start s'.stop = rp.1 := by
        show segOf ((out1 ++ rp.1) ++ tail) out1.length (out1 ++ rp.1).length = rp.1
        rw [List.append_assoc, List.length_append out1 rp.1]
        exact segOf_app out1 rp.1 tail
      have hstat : s'.status = rp.2 := rfl
      refine ⟨rfl, ?_, ?_, ?_⟩
      · show out1.length ≤ (out1 ++ rp.1).length
        have hla := List.length_append out1 rp.1
        omega
      · show (out1 ++ rp.1).length ≤ ((out1 ++ rp.1) ++ tail).length
        have hla := List.length_append (out1 ++ rp.1) tail
        omega
      · cases hl : r.lookup name with
        | some val =>
          show (if name ∈ r.secret_keys then
              s'.status = VarStatus.Secret ∧
                segOf ((out1 ++ rp.1) ++ tail) s'.start s'.stop = secretMask
            else
              s'.status = VarStatus.Resolved val ∧
                segOf ((out1 ++ rp.1) ++ tail) s'.start s'.stop = val)
          by_cases hsec : name ∈ r.secret_keys
          · rw [if_pos hsec]
            have hv : rp = (secretMask, VarStatus.Secret) := by
              rw [hrp]
              simp [resolveRepl, hl, hsec]
            exact ⟨by rw [hstat, hv], by rw [hseg, hv]⟩
          · rw [if_neg hsec]
            have hv : rp = (val, VarStatus.Resolved val) := by
              rw [hrp]
              simp [resolveRepl, hl, hsec]
            exact ⟨by rw [hstat, hv], by rw [hseg, hv]⟩
        | none =>
          show s'.status = VarStatus.Unresolved ∧
            segOf ((out1 ++ rp.1) ++ tail) s'.start s'.stop = segOf input start stop
          have hv : rp = ((input.drop start).take (stop - start), VarStatus.Unresolved) := by
            rw [hrp]
            simp [resolveRepl, hl]
          exact ⟨by rw [hstat, hv], by rw [hseg, hv]; rfl⟩

lemma resolve_spans_forall2 (r : EnvResolver) (input : Str) :
    List.Forall₂ (Corresponds r input (r.resolve input).value)
      (parse_vars input) (r.resolve input).spans := by
  unfold EnvResolver.resolve
  by_cases hp : parse_vars input = []
  · rw [hp]
    simp
  · rw [if_neg hp]
    obtain ⟨news, hspans, hfa⟩ := resolveAux_spans_forall2 r input (parse_vars input) 0 [] []
    rw [hspans]
    simpa using hfa

lemma resolveAux_congr (r1 r2 : EnvResolver) (input : Str)
    (hsec : r1.secret_keys = r2.secret_keys)
    (hdom : ∀ n, (r1.lookup n).isSome = (r2.lookup n).isSome)
    (hval : ∀ n, n ∉ r1.secret_keys → r1.lookup n = r2.lookup n) :
    ∀ (vs : List (Nat × Nat × Str)) (last : Nat) (out : Str) (spans : List VarSpan),
      r1.resolveAux input vs last out spans = r2.resolveAux input vs last out spans := by
  intro vs
  induction vs with
  | nil => intro last out spans; rfl
  | cons pv rest ih =>
    intro last out spans
    obtain ⟨start, stop, name⟩ := pv
    rw [resolveAux_cons, resolveAux_cons]
    have hrepl : resolveRepl r1 input start stop name = resolveRepl r2 input start stop name := by
      unfold resolveRepl
      by_cases hs : name ∈ r1.secret_keys
      · have hs2 : name ∈ r2.secret_keys := hsec ▸ hs
        cases h1 : r1.lookup name with
        | some v1 =>
          have h2 := hdom name
          rw [h1] at h2
          cases h2' : r2.lookup name with
          | some v2 => simp [h1, h2', hs, hs2]
          | none => rw [h2'] at h2; simp at h2
        | none =>
          have h2 := hdom name
          rw [h1] at h2
          cases h2' : r2.lookup name with
          | some v2 => rw [h2'] at h2; simp at h2
          | none => simp [h1, h2']
      · rw [hval name hs, hsec]
    rw [hrepl, ih]

lemma resolve_congr (r1 r2 : EnvResolver) (input : Str)
    (hsec : r1.secret_keys = r2.secret_keys)
    (hdom : ∀ n, (r1.lookup n).isSome = (r2.lookup n).isSome)
    (hval : ∀ n, n ∉ r1.secret_keys → r1.lookup n = r2.lookup n) :
    r1.resolve input = r2.resolve input := by
  unfold EnvResolver.resolve
  by_cases hp : parse_vars input = []
  · rw [hp]
    simp
  · rw [if_neg hp, if_neg hp]
    exact resolveAux_congr r1 r2 input hsec hdom hval (parse_vars input) 0 [] []

lemma resolveSendAux_cons (r : EnvResolver) (input : Str) (start stop : Nat) (name : Str)
    (rest : List (Nat × Nat × Str)) (last : Nat) (out : Str) :
    r.resolveSendAux input ((start, stop, name) :: rest) last out =
      r.resolveSendAux input rest stop
        (out ++ (input.drop last).take (start - last) ++
          (match r.lookup_secret name with
           | some val => val
           | none => (input.drop start).take (stop - start))) := by
  simp only [EnvResolver.resolveSendAux]
  cases r.lookup_secret name <;> rfl

lemma resolveSendAux_eq_nosecret (r : EnvResolver) (input : Str) :
    ∀ (vs : List (Nat × Nat × Str)) (last : Nat) (out : Str) (acc : List VarSpan),
      ((EnvResolver.mk r.layers []).resolveAux input vs last out acc).value
        = r.resolveSendAux input vs last out := by
  intro vs
  induction vs with
  | nil => intro last out acc; rfl
  | cons pv rest ih =>
    intro last out acc
    obtain ⟨start, stop, name⟩ := pv
    have hrepl1 : (resolveRepl (EnvResolver.mk r.layers []) input start stop name).1
        = (match r.lookup_secret name with
           | some val => val
           | none => (input.drop start).take (stop - start)) := by
      unfold resolveRepl EnvResolver.lookup_secret
      have hlk : (EnvResolver.mk r.layers []).lookup name = r.lookup name := rfl
      rw [hlk]
      cases h : r.lookup name with
      | some val => simp
      | none => simp
    rw [resolveAux_cons, ih, resolveSendAux_cons, hrepl1]

lemma resolve_for_send_eq_nosecret (r : EnvResolver) (input : Str) :
    r.resolve_for_send input = ((EnvResolver.mk r.layers []).resolve input).value := by
  unfold EnvResolver.resolve_for_send EnvResolver.resolve
  by_cases hp : parse_vars input = []
  · rw [hp]
    simp
  · rw [if_neg hp, if_neg hp]
    exact (resolveSendAux_eq_nosecret r input (parse_vars input) 0 [] []).symm

lemma forall2_mem_right {α β : Type} {R : α → β → Prop} :
    ∀ {as : List α} {bs : List β}, List.Forall₂ R as bs → ∀ b ∈ bs, ∃ a ∈ as, R a b := by
  intro as bs h
  induction h with
  | nil => intro b hb; cases hb
  | cons hR _ ih =>
    intro b hb
    rcases List.mem_cons.1 hb with rfl | hb2
    · exact ⟨_, List.mem_cons_self _ _, hR⟩
    · obtain ⟨a, ha, hab⟩ := ih b hb2
      exact ⟨a, List.mem_cons_of_mem _ ha, hab⟩

lemma forall2_getElem {α β : Type} {R : α → β → Prop} :
    ∀ {as : List α} {bs : List β}, List.Forall₂ R as bs →
      ∀ (i : Nat) (h1 : i < as.length) (h2 : i < bs.length), R as[i] bs[i] := by
  intro as bs h
  induction h with
  | nil => intro i h1 _; exact absurd h1 (by simp)
  | cons hR _ ih =>
    intro i h1 h2
    cases i with
    | zero => simpa using hR
    | succ n =>
      simp only [List.getElem_cons_succ]
      exact ih n (by simpa using h1) (by simpa using h2)

/-- C1: secret masking is display-only and value-independent.  Two
resolvers with the same secret set, the same lookup domain, and equal
values on every non-secret name produce identical `ResolvedString`s
(value and spans), so the display output carries no information about
secret values; every span of a found secret has status `Secret` and
covers exactly the fixed eight-bullet mask in the output, never the
stored value; and `resolve_for_send` on the same input equals the display
resolution with an empty secret set, i.e. it substitutes each found
variable's real stored value. -/
theorem C1_secret_masking (r1 r2 : EnvResolver) (input : Str)
    (hsec : r1.secret_keys = r2.secret_keys)
    (hdom : ∀ n, (r1.lookup n).isSome = (r2.lookup n).isSome)
    (hval : ∀ n, n ∉ r1.secret_keys → r1.lookup n = r2.lookup n) :
    r1.resolve input = r2.resolve input ∧
    (∀ s ∈ (r1.resolve input).spans,
      s.variable_name ∈ r1.secret_keys → (r1.lookup s.variable_name).isSome = true →
        s.status = VarStatus.Secret ∧
        segOf (r1.resolve input).value s.start s.stop = secretMask) ∧
    r1.resolve_for_send input = ((EnvResolver.mk r1.layers []).resolve input).value := by
  refine ⟨resolve_congr r1 r2 input hsec hdom hval, ?_, resolve_for_send_eq_nosecret r1 input⟩
  intro s hs hmem hsome
  obtain ⟨pv, _, hcor⟩ := forall2_mem_right (resolve_spans_forall2 r1 input) s hs
  obtain ⟨hname, _, _, hmatch⟩ := hcor
  have hmem' : pv.2.2 ∈ r1.secret_keys := by rw [← hname]; exact hmem
  cases hl : r1.lookup pv.2.2 with
  | none =>
    rw [hname, hl] at hsome
    simp at hsome
  | some val =>
    rw [hl] at hmatch
    have hmatch2 : (if pv.2.2 ∈ r1.secret_keys then
        s.status = VarStatus.Secret ∧
          segOf (r1.resolve input).value s.start s.stop = secretMask
      else s.status = VarStatus.Resolved val ∧
          segOf (r1.resolve input).value s.start s.stop = val) := hmatch
    rw [if_pos hmem'] at hmatch2
    exact hmatch2

lemma lookup_single (k v : Str) (sec : List Str) (n : Str) :
    (EnvResolver.mk [[(k, v)]] sec).lookup n = if k = n then some v else none := by
  simp only [EnvResolver.lookup, EnvResolver.lookup.go, layerGet]
  by_cases h : k = n <;> simp [h]

/-- The secret-holding resolver of the C1 witness. -/
def c1r1 : EnvResolver := ⟨[[("token".toList, "supersecret".toList)]], ["token".toList]⟩

/-- The same resolver with a different secret value. -/
def c1r2 : EnvResolver := ⟨[[("token".toList, "other".toList)]], ["token".toList]⟩

/-- The input `Bearer` followed by the `token` placeholder. -/
def c1Input : Str := "Bearer ".toList ++ [lbrace, lbrace] ++ "token".toList ++ [rbrace, rbrace]

/-- C1 witness: changing a secret's stored value leaves the display
resolution unchanged (masked with eight bullets), while the send
resolution substitutes the real value. -/
theorem C1_witness :
    c1r1.resolve c1Input = c1r2.resolve c1Input ∧
    c1r1.resolve_for_send c1Input = ((EnvResolver.mk c1r1.layers []).resolve c1Input).value ∧
    c1r1.resolve_for_send c1Input = "Bearer supersecret".toList ∧
    (c1r1.resolve c1Input).value = ("Bearer ".toList ++ secretMask) := by
  have hdom : ∀ n, (c1r1.lookup n).isSome = (c1r2.lookup n).isSome := by
    intro n
    show ((EnvResolver.mk [[("token".toList, "supersecret".toList)]] ["token".toList]).lookup n).isSome
      = ((EnvResolver.mk [[("token".toList, "other".toList)]] ["token".toList]).lookup n).isSome
    rw [lookup_single, lookup_single]
    by_cases h : ['t', 'o', 'k', 'e', 'n'] = n <;> simp [h]
  have hval : ∀ n, n ∉ c1r1.secret_keys → c1r1.lookup n = c1r2.lookup n := by
    intro n hn
    show (EnvResolver.mk [[("token".toList, "supersecret".toList)]] ["token".toList]).lookup n
      = (EnvResolver.mk [[("token".toList, "other".toList)]] ["token".toList]).lookup n
    rw [lookup_single, lookup_single]
    by_cases h : ['t', 'o', 'k', 'e', 'n'] = n
    · exact absurd (by rw [← h]; exact List.mem_singleton_self _) hn
    · simp [h]
  have h := C1_secret_masking c1r1 c1r2 c1Input rfl hdom hval
  exact ⟨h.1, h.2.2, by decide, by decide⟩

/-- C7: fail-open treatment of unresolved placeholders.  `resolve` emits
one span per parsed placeholder; for every placeholder whose name is
found in no layer, the emitted span keeps the name, carries status
`Unresolved`, and covers exactly the original literal placeholder text
of the input; and `resolve_for_send` (a total function — it never blocks
or fails) equals display resolution with no secrets, so it leaves the
same unresolved placeholders as literal text while substituting found
values. -/
theorem C7_unresolved_fail_open (r : EnvResolver) (input : Str) :
    (r.resolve input).spans.length = (parse_vars input).length ∧
    (∀ (i : Nat) (h1 : i < (parse_vars input).length)
        (h2 : i < (r.resolve input).spans.length),
      r.lookup (parse_vars input)[i].2.2 = none →
        ((r.resolve input).spans[i]).variable_name = (parse_vars input)[i].2.2 ∧
        ((r.resolve input).spans[i]).status = VarStatus.Unresolved ∧
        segOf (r.resolve input).value ((r.resolve input).spans[i]).start
            ((r.resolve input).spans[i]).stop
          = segOf input (parse_vars input)[i].1 (parse_vars input)[i].2.1) ∧
    r.resolve_for_send input = ((EnvResolver.mk r.layers []).resolve input).value := by
  have hfa := resolve_spans_forall2 r input
  refine ⟨(List.Forall₂.length_eq hfa).symm, ?_, resolve_for_send_eq_nosecret r input⟩
  intro i h1 h2 hnone
  have hcor := forall2_getElem hfa i h1 h2
  obtain ⟨hname, _, _, hmatch⟩ := hcor
  rw [hnone] at hmatch
  obtain ⟨hstat, hseg⟩ := hmatch
  exact ⟨hname, hstat, hseg⟩

/-- The input of the C7 witness: an unknown placeholder plus plain text. -/
def c7Input : Str := [lbrace, lbrace] ++ "unknown".toList ++ [rbrace, rbrace] ++ "/api".toList

/-- C7 witness: with no layers at all, the single placeholder stays
literal in both the display value and the send string. -/
theorem C7_witness :
    ((EnvResolver.mk [] []).resolve c7Input).spans.length = (parse_vars c7Input).length ∧
    (EnvResolver.mk [] []).resolve_for_send c7Input
      = ((EnvResolver.mk (EnvResolver.mk [] []).layers []).resolve c7Input).value ∧
    (EnvResolver.mk [] []).resolve_for_send c7Input = c7Input := by
  have h := C7_unresolved_fail_open (EnvResolver.mk [] []) c7Input
  exact ⟨h.1, h.2.2, by decide⟩

-- ─── C8: unterminated opener aborts the scan ─────────────────────────────────

lemma scanClose_some (s : Str) :
    ∀ (fuel j j' : Nat), scanClose s fuel j = some j' →
      j ≤ j' ∧ j' + 1 < s.length ∧
        s.getD j' ' ' = rbrace ∧ s.getD (j' + 1) ' ' = rbrace := by
  intro fuel
  induction fuel with
  | zero =>
    intro j j' h
    exact absurd h (by simp [scanClose])
  | succ fuel ih =>
    intro j j' h
    unfold scanClose at h
    split at h
    · split at h
      · rename_i hlt hcl
        injection h with h
        subst h
        exact ⟨le_refl _, hlt, hcl.1, hcl.2⟩
      · have hrec := ih (j + 1) j' h
        exact ⟨by omega, hrec.2⟩
    · exact absurd h (by simp)

lemma parseVarsAux_spans_closer (s : Str) :
    ∀ (fuel i : Nat), ∀ pv ∈ parseVarsAux s fuel i,
      ∃ j, pv.2.1 = j + 2 ∧ j + 1 < s.length ∧
        s.getD j ' ' = rbrace ∧ s.getD (j + 1) ' ' = rbrace := by
  intro fuel
  induction fuel with
  | zero =>
    intro i pv hpv
    exact absurd hpv (by simp [parseVarsAux])
  | succ fuel ih =>
    intro i pv hpv
    unfold parseVarsAux at hpv
    split at hpv
    · split at hpv
      · split at hpv
        · rename_i j hsc
          dsimp only at hpv
          split at hpv
          · rcases List.mem_cons.1 hpv with rfl | hpv2
            · obtain ⟨_, hjlt, hj1, hj2⟩ := scanClose_some s s.length (i + 2) j hsc
              exact ⟨j, rfl, hjlt, hj1, hj2⟩
            · exact ih (j + 2) pv hpv2
          · exact ih (j + 2) pv hpv
        · exact absurd hpv (by simp)
      · exact ih (i + 1) pv hpv
    · exact absurd hpv (by simp)

/-- C8: an occurrence of the two-character opening marker with no
subsequent closing marker aborts the whole scan: every span `parse_vars`
returns ends at or before that opener — nothing at or past it is ever
emitted, i.e. later matches are not searched — and in particular the
input consisting of an opener followed by `unterminated` yields no spans
at all. -/
theorem C8_unterminated_opener_aborts (input : Str) (p : Nat)
    (hopen1 : p + 1 < input.length)
    (hopen2 : input.getD p ' ' = lbrace ∧ input.getD (p + 1) ' ' = lbrace)
    (hnoclose : ∀ q, q < input.length → p + 2 ≤ q →
      ¬ (q + 1 < input.length ∧
          input.getD q ' ' = rbrace ∧ input.getD (q + 1) ' ' = rbrace)) :
    (∀ pv ∈ parse_vars input, pv.2.1 ≤ p) ∧
    parse_vars ([lbrace, lbrace] ++ "unterminated".toList) = [] := by
  refine ⟨?_, by decide⟩
  intro pv hpv
  obtain ⟨j, hen, hjlt, hj1, hj2⟩ := parseVarsAux_spans_closer input _ 0 pv hpv
  by_cases hjp : p + 2 ≤ j
  · exact absurd ⟨hjlt, hj1, hj2⟩ (hnoclose j (by omega) hjp)
  · have hne : ¬ lbrace = rbrace := by decide
    have hj_ne_p : ¬ j = p := fun h => hne (by rw [← hopen2.1, ← hj1, h])
    have hj_ne_p1 : ¬ j = p + 1 := fun h => hne (by rw [← hopen2.2, ← hj1, h])
    have hj1_ne_p : ¬ j + 1 = p := fun h => hne (by rw [← hopen2.1, ← hj2, h])
    rw [hen]
    omega

/-- C8 witness: the concrete unterminated input, opener at position 0,
has no closing marker anywhere, and the scan returns no spans. -/
theorem C8_witness :
    parse_vars ([lbrace, lbrace] ++ "unterminated".toList) = [] :=
  (C8_unterminated_opener_aborts ([lbrace, lbrace] ++ "unterminated".toList) 0 (by decide)
    (by decide) (by decide)).2
